import Mathlib

/-!
Shallow embedding of the sanctions-screening tool (`sanctions_app.py`): the
two PDF record extractors, the record store, and the fuzzy screening step
built on `thefuzz` (`process.extract` with `fuzz.token_set_ratio`).

Strings are modelled as `List Char` internally (`String` at the record
boundary).  Machine reals do not occur: `thefuzz` delegates to `rapidfuzz`,
whose similarity scores are rationals `100 * (2 * lcs) / (len1 + len2)`
rounded half-to-even; they are modelled here as exact `Nat × Nat` fractions.
-/

/-- ASCII whitespace recognised by Python `str.split()` / `str.strip()` and
by the regex class `\s` (space, tab, newline, carriage return, vertical tab,
form feed). -/
def isWsC (c : Char) : Bool :=
  c = ' ' || c = '\t' || c = '\n' || c = '\r' || c = '\x0b' || c = '\x0c'

/-- Length of the leading whitespace run of a string. -/
def wsRunLen (s : List Char) : Nat :=
  (s.takeWhile isWsC).length

/-- Drop leading whitespace. -/
def dropWsL (s : List Char) : List Char :=
  s.dropWhile isWsC

/-- Python `str.strip()`: drop whitespace at both ends. -/
def trimWsL (s : List Char) : List Char :=
  ((s.dropWhile isWsC).reverse.dropWhile isWsC).reverse

/-- Python `str.strip(' ;')` used on alias fragments: drop spaces and
semicolons at both ends. -/
def isStripSC (c : Char) : Bool := c = ' ' || c = ';'

def trimScL (s : List Char) : List Char :=
  ((s.dropWhile isStripSC).reverse.dropWhile isStripSC).reverse

/-- Python `str.lower()` on ASCII data, applied characterwise. -/
def lowerL (s : List Char) : List Char :=
  s.map Char.toLower

/-- Splitting on whitespace runs as Python `str.split()` does: empty pieces
are never produced.  `acc` holds the current word reversed. -/
def splitWsAux : List Char → List Char → List (List Char)
  | [], acc => if acc = [] then [] else [acc.reverse]
  | c :: cs, acc =>
    if isWsC c then
      if acc = [] then splitWsAux cs [] else acc.reverse :: splitWsAux cs []
    else
      splitWsAux cs (c :: acc)

def splitWs (s : List Char) : List (List Char) :=
  splitWsAux s []

/-- `thefuzz.utils.ascii_only`: Python `str.translate` with a table deleting
code points 128..255 (and only those). -/
def asciiFilter (s : List Char) : List Char :=
  s.filter (fun c => c.toNat < 128 || 255 < c.toNat)

/-- One character of `rapidfuzz.utils.default_process`: keep alphanumeric
characters lower-cased, replace everything else by a space. -/
def procChar (c : Char) : Char :=
  if c.isAlphanum then c.toLower else ' '

/-- `thefuzz.utils.full_process` with `force_ascii=True`: delete bytes
128..255, replace non-alphanumerics by spaces, lower-case, strip. -/
def fullProcess (s : List Char) : List Char :=
  trimWsL ((asciiFilter s).map procChar)

/-- The token list of a processed string (Python `s.split()` on the
processed text).  Deduplication into a token *set* happens at use sites. -/
def tokensOf (s : List Char) : List (List Char) :=
  splitWs (fullProcess s)

/-- Longest common subsequence length, the similarity core of the InDel
metric used by `rapidfuzz.fuzz.ratio`
(`dist = len1 + len2 - 2 * lcs`, `sim = 100 * 2 * lcs / (len1 + len2)`).
The structural fuel argument dominates the sum of the two lengths, which
every recursive call decreases, so `lcs` below computes the exact LCS. -/
def lcsAux : Nat → List Char → List Char → Nat
  | 0, _, _ => 0
  | _, [], _ => 0
  | _, _ :: _, [] => 0
  | fuel + 1, a :: as, b :: bs =>
    if a = b then lcsAux fuel as bs + 1
    else max (lcsAux fuel (a :: as) bs) (lcsAux fuel as (b :: bs))

def lcs (a b : List Char) : Nat :=
  lcsAux (a.length + b.length) a b

/-- A similarity value as an exact nonnegative fraction `num / den`
(value `100 * 2 * lcs / (len1 + len2)`; `den = 0` encodes the degenerate
two-empty-strings case, whose ratio is 100). -/
def iratioF (a b : List Char) : Nat × Nat :=
  (200 * lcs a b, a.length + b.length)

/-- Python `max` on two similarity fractions (first argument preferred on
ties, as Python `max` keeps the first maximal element; on ties the two
fractions have equal value so the choice is irrelevant after rounding). -/
def maxF (p q : Nat × Nat) : Nat × Nat :=
  if p.1 * q.2 < q.1 * p.2 then q else p

/-- Python `int(round(x))` on the exact fraction `num / den`:
round half to even (`den = 0` encodes value 100, see `iratioF`). -/
def pyRoundFrac (p : Nat × Nat) : Nat :=
  if p.2 = 0 then 100
  else
    let i := p.1 / p.2
    let r := p.1 % p.2
    if 2 * r < p.2 then i
    else if p.2 < 2 * r then i + 1
    else if i % 2 = 0 then i else i + 1

/-- Sort a token list lexicographically (Python `sorted` on strings);
insertion sort, used only computationally. -/
def strLeB : List Char → List Char → Bool
  | [], _ => true
  | _ :: _, [] => false
  | x :: xs, y :: ys => if x = y then strLeB xs ys else decide (x < y)

def insertTok (x : List Char) : List (List Char) → List (List Char)
  | [] => [x]
  | y :: ys => if strLeB x y then x :: y :: ys else y :: insertTok x ys

def sortToks : List (List Char) → List (List Char)
  | [] => []
  | x :: xs => insertTok x (sortToks xs)

/-- Python `" ".join(words)`. -/
def joinWords : List (List Char) → List Char
  | [] => []
  | [w] => w
  | w :: ws => w ++ ' ' :: joinWords ws

/-- `thefuzz.fuzz.token_set_ratio` on `List Char`
(= `int(round(rapidfuzz.fuzz.token_set_ratio(full_process s1, full_process s2)))`):
token sets of the two processed strings; 0 if either set is empty; 100 if one
token set contains the other (nonempty) one; otherwise the rounded maximum of
the three InDel ratios between `sorted-intersection` and the two
`sorted-intersection + sorted-difference` combinations. -/
def tokenSetScoreL (s1 s2 : List Char) : Nat :=
  let ta := (tokensOf s1).dedup
  let tb := (tokensOf s2).dedup
  if ta = [] || tb = [] then 0
  else
    let inter := ta.filter (fun t => decide (t ∈ tb))
    let dab := ta.filter (fun t => decide (t ∉ tb))
    let dba := tb.filter (fun t => decide (t ∉ ta))
    if inter ≠ [] ∧ (dab = [] ∨ dba = []) then 100
    else
      let sect := joinWords (sortToks inter)
      let sab := joinWords (sortToks dab)
      let sba := joinWords (sortToks dba)
      let cab := trimWsL (sect ++ ' ' :: sab)
      let cba := trimWsL (sect ++ ' ' :: sba)
      pyRoundFrac (maxF (maxF (iratioF sect cab) (iratioF sect cba)) (iratioF cab cba))

/-- The scorer at the `String` boundary. -/
def tokenSetScore (s1 s2 : String) : Nat :=
  tokenSetScoreL s1.toList s2.toList

/-!
## Data model and the screening pipeline of `main`

A `SanctionRecord` mirrors one row of the consolidated `df_master` DataFrame
(the dict literals appended by the two extractors and `get_sample_data`).
-/

structure SanctionRecord where
  Source : String
  Reference_No : String
  Name : String
  Aliases : String
  DOB : String
  Designation : String
  Nationality : String
  Raw_Data : String
deriving DecidableEq, Repr

/-- Line 310: `df_master['Search_Vector'] = df_master['Name'].astype(str) + " " + df_master['Aliases'].astype(str)`,
recomputed from the two fields on every screening. -/
def searchVector (r : SanctionRecord) : String :=
  r.Name ++ " " ++ r.Aliases

/-- Stable descending insertion by score: the documented behaviour of
`heapq.nlargest(limit, scored, key=score)`
(= `sorted(scored, key=score, reverse=True)[:limit]`, a stable sort). -/
def insertDesc (x : String × Nat) : List (String × Nat) → List (String × Nat)
  | [] => [x]
  | y :: ys => if x.2 < y.2 then y :: insertDesc x ys else x :: y :: ys

def sortDesc : List (String × Nat) → List (String × Nat)
  | [] => []
  | x :: xs => insertDesc x (sortDesc xs)

/-- Line 311: `matches = process.extract(search_query, df_master['Search_Vector'].tolist(), limit=10, scorer=fuzz.token_set_ratio)`.
With a `token_set_ratio` scorer, `thefuzz.process.extract` applies no extra
processor, scores every choice (cutoff 0), and returns the 10 largest
`(choice, score)` pairs, ties kept in store order. -/
def screenMatches (q : String) (store : List SanctionRecord) : List (String × Nat) :=
  (sortDesc ((store.map searchVector).map (fun c => (c, tokenSetScore q c)))).take 10

/-- Lines 314-315: `threshold = 80; high_risk_matches = [m for m in matches if m[1] >= threshold]`. -/
def high_risk_matches (ms : List (String × Nat)) : List (String × Nat) :=
  ms.filter (fun m => decide (80 ≤ m.2))

/-- Outcome of one press of the SCREEN NOW button (lines 306-327): either the
`st.warning` branch (query falsy) or the screening branch with its candidate
list and high-risk subset. -/
inductive SearchOutcome where
  | warned : SearchOutcome
  | screened : List (String × Nat) → List (String × Nat) → SearchOutcome
deriving DecidableEq, Repr

/-- Lines 306-327: `if search_query:` — only the *empty string* is falsy in
Python, so exactly `q = ""` takes the warning branch; otherwise the fuzzy
search runs.  The record store is returned alongside to express that neither
branch alters it. -/
def runSearch (q : String) (store : List SanctionRecord) :
    SearchOutcome × List SanctionRecord :=
  if q = "" then (.warned, store)
  else (.screened (screenMatches q store) (high_risk_matches (screenMatches q store)), store)

/-- `get_sample_data()` (lines 185-207), the fallback store used when no file
is uploaded. -/
def get_sample_data : List SanctionRecord :=
  [ { Source := "MOHA Domestic List (Malaysia)", Reference_No := "KDN.1.08-2014",
      Name := "Halimah binti Hussein", Aliases := "", DOB := "9.12.1961",
      Designation := "Individual", Nationality := "Malaysia",
      Raw_Data := "ID: 611209-01-5514" },
    { Source := "MOHA Domestic List (Malaysia)", Reference_No := "KDN.1.04-2016",
      Name := "Nor Mahmudah binti Ahmad", Aliases := "Cik Mud", DOB := "1.1.1989",
      Designation := "Individual", Nationality := "Malaysia",
      Raw_Data := "ID: 890101-26-5006" },
    { Source := "UNSCR 1267/1989/2253 (ISIL/Al-Qaida)", Reference_No := "QDi.006",
      Name := "AIMAN MUHAMMED RABI AL-ZAWAHIRI", Aliases := "Ayman Al-Zawahari",
      DOB := "19 Jun. 1951", Designation := "Leader of Al-Qaida",
      Nationality := "Egypt", Raw_Data := "Reportedly deceased" },
    { Source := "UNSCR 1988 (Taliban)", Reference_No := "TAi.144",
      Name := "SIRAJUDDIN JALLALOUDINE HAQQANI", Aliases := "Siraj Haqqani | Khalifa",
      DOB := "1977-1978", Designation := "Deputy Commander",
      Nationality := "Afghanistan", Raw_Data := "Haqqani Network" },
    { Source := "UNSCR 1988 (Taliban)", Reference_No := "TAi.173",
      Name := "ABDUL BASIR NOORZAI", Aliases := "Haji Abdul Basir | Haji Basir Noorzai",
      DOB := "1965", Designation := "Haji", Nationality := "Afghanistan",
      Raw_Data := "Owner of Haji Basir and Zarjmil Company" },
    { Source := "UNSCR 1718 (DPRK)", Reference_No := "KPi.033",
      Name := "RI WON HO", Aliases := "", DOB := "17 Jul. 1964",
      Designation := "Official", Nationality := "DPRK",
      Raw_Data := "Ministry of State Security" },
    { Source := "UNSCR 2231 (Iran)", Reference_No := "IRi.039",
      Name := "QASEM SOLEIMANI", Aliases := "Qasim Soleimani", DOB := "11 Mar. 1957",
      Designation := "Major General", Nationality := "Iran",
      Raw_Data := "Commander of Qods Force" } ]

/-- Data loading (lines 262-285): the uploaded documents' extraction results
in upload order, or the sample fallback when no file at all was supplied.
`pd.concat` on a nonempty list of frames concatenates their rows. -/
def loadStore (frames : List (List SanctionRecord)) : List SanctionRecord :=
  if frames = [] then get_sample_data else frames.flatten

/-- The search step at app level.  When at least one file was uploaded but
every upload extracted to zero records, `pd.concat` of columnless empty
DataFrames yields a DataFrame without columns, and line 310
(`df_master['Name']`) raises `KeyError`; this pandas behaviour is made
explicit as the `.error` case. -/
def appSearch (q : String) (frames : List (List SanctionRecord)) :
    Except String SearchOutcome :=
  if q = "" then .ok .warned
  else if frames ≠ [] ∧ frames.all (fun f => f = []) then .error "KeyError: Name"
  else
    .ok (.screened (screenMatches q (loadStore frames))
      (high_risk_matches (screenMatches q (loadStore frames))))

/-!
## Regex machinery for `parse_un_style_pdf`

The four fixed patterns of the narrative extractor are modelled by
specialised backtracking searches with Python `re` semantics: leftmost
start position, greedy `\s*`/`\s+` (maximal first, backtracking downwards),
lazy `(.+?)` (minimal first, growing upwards), alternations tried in order.
-/

/-- Try `f start`, `f (start+1)`, ... for `fuel` positions, returning the
first `some` (the regex engine's left-to-right scan over start positions,
and, reused, the lazy growth of `(.+?)`). -/
def scanFrom (f : Nat → Option α) : Nat → Nat → Option α
  | 0, _ => none
  | fuel + 1, start => f start <|> scanFrom f fuel (start + 1)

/-- Try `f j`, `f (j-1)`, ..., `f 0`, returning the first `some`
(greedy `\s*`: maximal first, backtracking downwards). -/
def downFrom (f : Nat → Option α) : Nat → Option α
  | 0 => f 0
  | j + 1 => f (j + 1) <|> downFrom f j

/-- The terminator alternation of the name pattern, in source order:
`(?:Name \(original|Title:|Designation:|DOB:)`. -/
def nameAlts : List (List Char) :=
  ["Name (original".toList, "Title:".toList, "Designation:".toList, "DOB:".toList]

/-- `\s+(?:alts)` at the start of `s`: some `m ≥ 1` whitespace characters
within the leading whitespace run, followed by one of the alternatives
(success is existence; the greedy backtracking order does not change which
group contents can succeed, only the discarded `m`). -/
def termAfterWs (alts : List (List Char)) (s : List Char) : Bool :=
  (List.range (wsRunLen s)).any fun i => alts.any fun a => a.isPrefixOf (s.drop (i + 1))

/-- Lazy `(.+?)` over `body` followed by `\s+(?:alts)`: the least `l ≥ 1`
whose remainder passes `termAfterWs` wins; the group is `body.take l`. -/
def lazyGroupWs (alts : List (List Char)) (body : List Char) : Option (List Char) :=
  scanFrom
    (fun l0 =>
      if termAfterWs alts (body.drop (l0 + 1)) then some (body.take (l0 + 1)) else none)
    body.length 0

/-- Anchored match of `Name:\s*(.+?)\s+(?:alts)` at the start of `s`
(which must begin with `Name:`): greedy `\s*` consumes `j` characters,
maximal `j` first. -/
def nameAt (s : List Char) : Option (List Char) :=
  let rest := s.drop 5
  downFrom (fun j => lazyGroupWs nameAlts (rest.drop j)) (wsRunLen rest)

/-- Line 84: `re.search(r'Name:\s*(.+?)\s+(?:Name \(original|Title:|Designation:|DOB:)', entry, re.DOTALL)`,
returning group 1. -/
def nameSearch (s : List Char) : Option (List Char) :=
  scanFrom
    (fun p =>
      if ("Name:".toList).isPrefixOf (s.drop p) then nameAt (s.drop p) else none)
    s.length 0

/-- Line 89: `re.sub(r'\d+:', '', raw_name)` — a maximal nonempty digit run
immediately followed by `:` is deleted (together with the colon); a maximal
digit run not followed by `:` is emitted unchanged, as the scan fails at
every position inside it.  `pend` holds the digit run currently being
scanned, reversed. -/
def sdcAux : List Char → List Char → List Char
  | [], pend => pend.reverse
  | c :: rest, pend =>
    if c.isDigit then sdcAux rest (c :: pend)
    else if c = ':' then
      if pend = [] then ':' :: sdcAux rest []
      else sdcAux rest []
    else pend.reverse ++ c :: sdcAux rest []

def subDigitsColon (s : List Char) : List Char :=
  sdcAux s []

/-- Line 90: `.replace('na', '')` — every non-overlapping occurrence of the
two-character substring `na` is removed, scanning left to right. -/
def removeNa : List Char → List Char
  | 'n' :: 'a' :: rest => removeNa rest
  | c :: rest => c :: removeNa rest
  | [] => []

/-- Python `str.replace(old, new)` for a single-character `old`. -/
def replChar (old new : Char) (s : List Char) : List Char :=
  s.map fun c => if c = old then new else c

/-- Line 92: `re.sub(r'\s+', ' ', clean_name)` — collapse every whitespace
run to a single space; the flag records whether the scan is inside a run. -/
def cwsAux : List Char → Bool → List Char
  | [], _ => []
  | c :: rest, inRun =>
    if isWsC c then
      if inRun then cwsAux rest true else ' ' :: cwsAux rest true
    else c :: cwsAux rest false

def collapseWs (s : List Char) : List Char :=
  cwsAux s false

/-- Lines 89-92: the cleaning pipeline applied to the raw `Name:` group —
delete digit-run-plus-colon markers, delete `na` substrings, newlines to
spaces, strip, collapse whitespace. -/
def cleanName (raw : List Char) : List Char :=
  collapseWs (trimWsL (replChar '\n' ' ' (removeNa (subDigitsColon raw))))

/-- Lines 84-94: the extracted name of an entry chunk, `"Unknown Name"` when
the pattern finds nothing. -/
def extractName (entry : List Char) : String :=
  match nameSearch entry with
  | some raw => String.mk (cleanName raw)
  | none => "Unknown Name"

/-- The two alias labels, in alternation order:
`(Good quality a\.k\.a\.:|Low quality a\.k\.a\.:)`. -/
def goodLab : List Char := "Good quality a.k.a.:".toList
def lowLab : List Char := "Low quality a.k.a.:".toList

/-- The alias terminator alternation, in source order:
`(Nationality:|Passport no:|National identification|Address:)`. -/
def aliasTerms : List (List Char) :=
  ["Nationality:".toList, "Passport no:".toList, "National identification".toList,
   "Address:".toList]

/-- Lazy `(.+?)` directly followed by one of `terms` (no whitespace class in
between): least `l ≥ 1` such that a terminator literal starts right after. -/
def lazyGroupTerm (terms : List (List Char)) (body : List Char) : Option (List Char) :=
  scanFrom
    (fun l0 =>
      if terms.any (fun t => t.isPrefixOf (body.drop (l0 + 1)))
      then some (body.take (l0 + 1)) else none)
    body.length 0

/-- Line 99: `re.search(r'(Good quality a\.k\.a\.:|Low quality a\.k\.a\.:)(.+?)(Nationality:|Passport no:|National identification|Address:)', entry, re.DOTALL)`,
returning group 2. -/
def aliasSearch (s : List Char) : Option (List Char) :=
  scanFrom
    (fun p =>
      let t := s.drop p
      if goodLab.isPrefixOf t then lazyGroupTerm aliasTerms (t.drop goodLab.length)
      else if lowLab.isPrefixOf t then lazyGroupTerm aliasTerms (t.drop lowLab.length)
      else none)
    s.length 0

/-- Line 103: `re.split(r'[a-z]\)', raw_aliases)` — split on every
non-overlapping occurrence of an ASCII lowercase letter followed by `)`,
scanning left to right; `acc` holds the current fragment reversed. -/
def isLowerAZ (c : Char) : Bool := 'a' ≤ c && c ≤ 'z'

def splitLpAux : List Char → List Char → List (List Char)
  | c :: ')' :: rest, acc =>
    if isLowerAZ c then acc.reverse :: splitLpAux rest []
    else splitLpAux (')' :: rest) (c :: acc)
  | c :: rest, acc => splitLpAux rest (c :: acc)
  | [], acc => [acc.reverse]

def splitLp (s : List Char) : List (List Char) :=
  splitLpAux s []

/-- Line 104: `[a.strip(' ;').strip() for a in cleaned if len(a) > 2 and a.lower() != 'na']` —
the filter tests the *raw* fragment, the kept fragments are then trimmed of
spaces/semicolons and whitespace. -/
def aliasKeep (a : List Char) : Bool :=
  2 < a.length && decide (lowerL a ≠ "na".toList)

def aliasPipeline (g2 : List Char) : List (List Char) :=
  ((splitLp (replChar '\n' ' ' g2)).filter aliasKeep).map (fun a => trimWsL (trimScL a))

/-- Lines 98-104: the extracted alias list of an entry chunk. -/
def extractAliases (entry : List Char) : List (List Char) :=
  match aliasSearch entry with
  | some g2 => aliasPipeline g2
  | none => []

/-- The DOB terminator alternation: `(?:POB:|Good quality)`. -/
def dobAlts : List (List Char) := ["POB:".toList, "Good quality".toList]

/-- Lazy `(.+?)` without DOTALL (so the group may not contain a newline)
followed by `\s+(?:POB:|Good quality)`. -/
def lazyGroupDob (body : List Char) : Option (List Char) :=
  scanFrom
    (fun l0 =>
      if (body.take (l0 + 1)).all (fun c => c ≠ '\n')
          && termAfterWs dobAlts (body.drop (l0 + 1))
      then some (body.take (l0 + 1)) else none)
    body.length 0

/-- Line 107: `re.search(r'DOB:\s*(.+?)\s+(?:POB:|Good quality)', entry)`,
returning group 1 (no DOTALL: `.` does not match a newline). -/
def dobSearch (s : List Char) : Option (List Char) :=
  scanFrom
    (fun p =>
      if ("DOB:".toList).isPrefixOf (s.drop p) then
        let rest := (s.drop p).drop 4
        downFrom (fun j => lazyGroupDob (rest.drop j)) (wsRunLen rest)
      else none)
    s.length 0

/-- Anchored match of the reference pattern `[A-Z]{2}[i|e]\.\d+` (note that
the character class `[i|e]` also contains the literal `|`): two ASCII
uppercase letters, one of `i`/`|`/`e`, a dot, then a maximal nonempty digit
run (the group). -/
def isUpperAZ (c : Char) : Bool := 'A' ≤ c && c ≤ 'Z'

def refMatchAt (s : List Char) : Option (List Char) :=
  match s with
  | c1 :: c2 :: c3 :: '.' :: rest =>
    if isUpperAZ c1 && isUpperAZ c2 && (c3 = 'i' || c3 = '|' || c3 = 'e') then
      let ds := rest.takeWhile Char.isDigit
      if ds = [] then none else some (c1 :: c2 :: c3 :: '.' :: ds)
    else none
  | _ => none

/-- Line 75: `re.search(r'([A-Z]{2}[i|e]\.\d+)', entry)` — first match in
left-to-right scan order. -/
def findRef (s : List Char) : Option (List Char) :=
  scanFrom (fun p => refMatchAt (s.drop p)) s.length 0

/-- Line 67: the zero-width lookahead split
`re.split(r'(?=\s+[A-Z]{2}[i|e]\.\d+)', full_text)`: the text is cut at
every position where `\s+[A-Z]{2}[i|e]\.\d+` begins (some `m ≥ 1`
whitespace characters, then the reference pattern). -/
def lookaheadAt (s : List Char) (p : Nat) : Bool :=
  let t := s.drop p
  (List.range (wsRunLen t)).any fun i => (refMatchAt (t.drop (i + 1))).isSome

/-- Cut `s` at the (ascending) positions `ps`; `base` is the absolute
position of the head of `s`. -/
def cutAt : List Char → Nat → List Nat → List (List Char)
  | s, _, [] => [s]
  | s, base, p :: ps => s.take (p - base) :: cutAt (s.drop (p - base)) p ps

def splitEntries (s : List Char) : List (List Char) :=
  cutAt s 0 ((List.range (s.length + 1)).filter (lookaheadAt s))

/-- Lines 69-119: one entry chunk to at most one record.  Blank chunks and
chunks without a reference number are skipped (`continue`); every other
chunk yields a record, with sentinels for missing fields. -/
def processEntry (list_name : String) (entry : List Char) : Option SanctionRecord :=
  if trimWsL entry = [] then none
  else
    match findRef entry with
    | none => none
    | some ref =>
      some
        { Source := list_name
          Reference_No := String.mk ref
          Name := extractName entry
          Aliases := String.intercalate " | " ((extractAliases entry).map String.mk)
          DOB := match dobSearch entry with
                 | some d => String.mk (trimWsL d)
                 | none => "NA"
          Designation := "UN Sanctioned"
          Nationality := "International"
          Raw_Data := String.mk (entry.take 300) }

/-- Lines 55-61: page texts are concatenated with a trailing newline per
nonempty page (`extract_text()` returning `None`/`""` is modelled as `""`);
any page-level error aborts the whole `try` block before any record is
appended. -/
def buildFullText : List (Except Unit String) → Option (List Char)
  | [] => some []
  | .error _ :: _ => none
  | .ok s :: rest =>
    (buildFullText rest).map fun t =>
      (if s = "" then [] else s.toList ++ ['\n']) ++ t

/-- Lines 47-124: `parse_un_style_pdf`.  An extraction-time error leaves
`data` empty (all appends happen after the full text is built), so the
`except: pass` path returns the empty record list. -/
def parse_un_style_pdf (pages : List (Except Unit String)) (list_name : String) :
    List SanctionRecord :=
  match buildFullText pages with
  | none => []
  | some full_text => (splitEntries full_text).filterMap (processEntry list_name)

/-!
## `parse_kdn_pdf`: the tabular extractor

A row is a list of cells, each a string or `None` (`Option String`), as
produced by `pdfplumber.extract_tables`.  A page is a list of tables, a
table a list of rows.
-/

/-- Substring containment, Python's `pat in s`. -/
def containsSub (pat s : List Char) : Bool :=
  (List.range (s.length + 1)).any fun p => pat.isPrefixOf (s.drop p)

/-- Line 140-141: `row_str = str(row); if "KDN" in row_str`.  `str(row)` is
the Python repr of the cell list; cells are separated by `', '` and `None`
prints as `None`, so the three-character marker `KDN` occurs in `str(row)`
exactly when it occurs inside some cell string.  The repr is modelled
without the quote decoration, which cannot affect the containment test. -/
def rowStr (row : List (Option String)) : List Char :=
  String.toList (String.intercalate ", " (row.map fun c => c.getD "None"))

def kdnInRow (row : List (Option String)) : Bool :=
  containsSub "KDN".toList (rowStr row)

/-- Lines 150-153: scan the row for the first truthy cell whose `str`
contains `KDN`. -/
def findKdnCell : List (Option String) → Option String
  | [] => none
  | some s :: rest =>
    if s ≠ "" && containsSub "KDN".toList s.toList then some s
    else findKdnCell rest
  | none :: rest => findKdnCell rest

/-- `str(x).replace('\n', ' | ')` used for reference, DOB and ID cells. -/
def replNlBar (s : String) : String :=
  String.mk ((s.toList.map fun c => if c = '\n' then " | ".toList else [c]).flatten)

/-- `str(x).replace('\n', ' ')` used for name and alias cells. -/
def replNlSp (s : String) : String :=
  String.mk (replChar '\n' ' ' s.toList)

/-- Lines 165-169: `v = str(v).replace(...) if v else default` — Python
`None` and the empty string are falsy and give the default. -/
def finalizeCell (v : Option String) (repl : String → String) (dflt : String) : String :=
  match v with
  | none => dflt
  | some s => if s = "" then dflt else repl s

/-- Lines 141-180: one table row to at most one record. -/
def parseKdnRow (row : List (Option String)) : Option SanctionRecord :=
  if kdnInRow row then
    let ref : Option String := match findKdnCell row with
                               | some s => some s
                               | none => some "Unknown"
    let name : Option String := if 2 < row.length then row.getD 2 none
                                else some "Unknown"
    let aliasV : Option String := if 7 < row.length then row.getD 7 none
                                  else some ""
    let dob : Option String := if 5 < row.length then row.getD 5 none
                               else some ""
    let id_num : Option String := if 10 < row.length then row.getD 10 none
                                  else some ""
    some
      { Source := "MOHA Domestic List (Malaysia)"
        Reference_No := finalizeCell ref replNlBar "N/A"
        Name := finalizeCell name replNlSp "N/A"
        Aliases := finalizeCell aliasV replNlSp ""
        DOB := finalizeCell dob replNlBar ""
        Designation := "Specified Entity (Domestic)"
        Nationality := "Malaysia/Other"
        Raw_Data := "ID: " ++ finalizeCell id_num replNlBar "" }
  else none

/-- One page: every row of every detected table, in order. -/
def kdnPageRecords (pg : List (List (List (Option String)))) : List SanctionRecord :=
  pg.flatten.filterMap parseKdnRow

/-- Lines 126-183: `parse_kdn_pdf`.  Records are appended row by row inside
the `try` block, so an error on a later page leaves the records accumulated
from earlier pages in `data`, and `except: pass` returns exactly those. -/
def parse_kdn_pdf : List (Except Unit (List (List (List (Option String))))) →
    List SanctionRecord
  | [] => []
  | .error _ :: _ => []
  | .ok pg :: rest => kdnPageRecords pg ++ parse_kdn_pdf rest

/-- The per-cell test of the reference scan (line 151):
`cell and "KDN" in str(cell)`. -/
def cellHasKdn : Option String → Bool
  | some s => s ≠ "" && containsSub "KDN".toList s.toList
  | none => false

/-- A record with only the fields relevant to screening populated, for
concrete screening scenarios. -/
def mkRec (n a : String) : SanctionRecord :=
  { Source := "UNSCR 1988 (Taliban)", Reference_No := "TAi.173", Name := n,
    Aliases := a, DOB := "", Designation := "", Nationality := "", Raw_Data := "" }

def c1rec : SanctionRecord := mkRec "AIMAN ZAWAHIRI" "Ayman Al-Zawahari"

/-- A record whose name is non-empty but normalises to no tokens. -/
def c1dash : SanctionRecord := mkRec "-" ""

def c2rec80 : SanctionRecord := mkRec "abcdx" ""

def c2rec79 : SanctionRecord := mkRec "abcdefghijkpqr" ""

def c3rec : SanctionRecord := mkRec "Ali" ""

/-!
## Lemmas: the scan combinators
-/

theorem scanFrom_eq {α : Type} (f : Nat → Option α) (v : α) :
    ∀ (n k s : Nat), (∀ i, i < k → f (s + i) = none) → f (s + k) = some v →
      k < n → scanFrom f n s = some v := by
  intro n
  induction n with
  | zero => intro k s _ _ hk; omega
  | succ n ih =>
    intro k s h0 h1 _
    cases k with
    | zero =>
      simp only [Nat.add_zero] at h1
      simp [scanFrom, h1]
    | succ k =>
      have hs : f s = none := by
        have := h0 0 (by omega)
        simpa using this
      have h0' : ∀ i, i < k → f (s + 1 + i) = none := by
        intro i hi
        have := h0 (i + 1) (by omega)
        have harr : s + (i + 1) = s + 1 + i := by omega
        rwa [harr] at this
      have h1' : f (s + 1 + k) = some v := by
        have harr : s + (k + 1) = s + 1 + k := by omega
        rwa [harr] at h1
      have htail := ih k (s + 1) h0' h1' (by omega)
      simp [scanFrom, hs, htail]

theorem downFrom_eq_top {α : Type} (f : Nat → Option α) (j : Nat) (v : α)
    (h : f j = some v) : downFrom f j = some v := by
  cases j with
  | zero => simpa [downFrom] using h
  | succ j => simp [downFrom, h]

/-!
## Lemmas: whitespace splitting and token lists
-/

theorem splitWsAux_allWs :
    ∀ (t : List Char), (∀ c ∈ t, isWsC c) →
      ∀ acc, splitWsAux t acc = if acc = [] then [] else [acc.reverse] := by
  intro t
  induction t with
  | nil => intro _ acc; rfl
  | cons c t ih =>
    intro hws acc
    have hc : isWsC c = true := hws c (by simp)
    have ht : splitWsAux t [] = [] := by
      simpa using ih (fun x hx => hws x (by simp [hx])) []
    by_cases hacc : acc = [] <;> simp [splitWsAux, hc, hacc, ht]

theorem splitWsAux_append_allWs (t : List Char) (hws : ∀ c ∈ t, isWsC c) :
    ∀ (a : List Char) (acc), splitWsAux (a ++ t) acc = splitWsAux a acc := by
  intro a
  induction a with
  | nil =>
    intro acc
    rw [List.nil_append, splitWsAux_allWs t hws acc]
    rfl
  | cons c a ih =>
    intro acc
    by_cases hc : isWsC c
    · by_cases hacc : acc = [] <;> simp [splitWsAux, hc, hacc, ih]
    · simp [splitWsAux, hc, ih]

theorem splitWsAux_append_space (b : List Char) :
    ∀ (a : List Char) (acc),
      splitWsAux (a ++ ' ' :: b) acc = splitWsAux a acc ++ splitWsAux b [] := by
  intro a
  induction a with
  | nil =>
    intro acc
    have hsp : isWsC ' ' = true := by decide
    by_cases hacc : acc = [] <;> simp [splitWsAux, hsp, hacc]
  | cons c a ih =>
    intro acc
    by_cases hc : isWsC c
    · by_cases hacc : acc = [] <;> simp [splitWsAux, hc, hacc, ih]
    · simp [splitWsAux, hc, ih]

theorem splitWsAux_dropWhile (s : List Char) :
    splitWsAux (s.dropWhile isWsC) [] = splitWsAux s [] := by
  induction s with
  | nil => rfl
  | cons c s ih =>
    by_cases hc : isWsC c <;> simp [List.dropWhile, splitWsAux, hc, ih]

theorem splitWs_trimWsL (s : List Char) : splitWs (trimWsL s) = splitWs s := by
  unfold splitWs trimWsL
  set u := s.dropWhile isWsC with hu
  have hsplit : u.reverse.takeWhile isWsC ++ u.reverse.dropWhile isWsC = u.reverse :=
    List.takeWhile_append_dropWhile isWsC u.reverse
  have hu2 : (u.reverse.dropWhile isWsC).reverse ++ (u.reverse.takeWhile isWsC).reverse
      = u := by
    rw [← List.reverse_append, hsplit, List.reverse_reverse]
  have hws : ∀ c ∈ (u.reverse.takeWhile isWsC).reverse, isWsC c := by
    intro c hc
    exact List.mem_takeWhile_imp (List.mem_reverse.mp hc)
  calc splitWsAux (u.reverse.dropWhile isWsC).reverse []
      = splitWsAux ((u.reverse.dropWhile isWsC).reverse
          ++ (u.reverse.takeWhile isWsC).reverse) [] :=
        (splitWsAux_append_allWs _ hws _ _).symm
    _ = splitWsAux u [] := by rw [hu2]
    _ = splitWsAux s [] := splitWsAux_dropWhile s

theorem procMap_append_space (x y : List Char) :
    ((asciiFilter (x ++ ' ' :: y)).map procChar)
      = ((asciiFilter x).map procChar) ++ ' ' :: ((asciiFilter y).map procChar) := by
  have hsp : ((fun c : Char => c.toNat < 128 || 255 < c.toNat) ' ') = true := by decide
  have hpc : procChar ' ' = ' ' := by decide
  simp only [asciiFilter, List.filter_append, List.filter_cons, hsp, if_true,
    List.map_append, List.map_cons, hpc]

theorem tokensOf_append_space (x y : List Char) :
    tokensOf (x ++ ' ' :: y) = tokensOf x ++ tokensOf y := by
  unfold tokensOf fullProcess
  rw [splitWs_trimWsL, procMap_append_space, splitWs_trimWsL, splitWs_trimWsL]
  exact splitWsAux_append_space _ _ _

/-!
## Lemmas: score bounds
-/

theorem lcsAux_le_left : ∀ (fuel : Nat) (a b : List Char), lcsAux fuel a b ≤ a.length := by
  intro fuel
  induction fuel with
  | zero => intro a b; simp [lcsAux]
  | succ fuel ih =>
    intro a b
    cases a with
    | nil => simp [lcsAux]
    | cons x xs =>
      cases b with
      | nil => simp [lcsAux]
      | cons y ys =>
        rw [lcsAux]
        by_cases hxy : x = y
        · simp only [hxy, if_true, List.length_cons]
          exact Nat.succ_le_succ (ih xs ys)
        · simp only [hxy, if_false]
          exact max_le (ih (x :: xs) ys)
            (Nat.le_trans (ih xs (y :: ys)) (by simp))

theorem lcsAux_le_right : ∀ (fuel : Nat) (a b : List Char), lcsAux fuel a b ≤ b.length := by
  intro fuel
  induction fuel with
  | zero => intro a b; simp [lcsAux]
  | succ fuel ih =>
    intro a b
    cases a with
    | nil => simp [lcsAux]
    | cons x xs =>
      cases b with
      | nil => simp [lcsAux]
      | cons y ys =>
        rw [lcsAux]
        by_cases hxy : x = y
        · simp only [hxy, if_true, List.length_cons]
          exact Nat.succ_le_succ (ih xs ys)
        · simp only [hxy, if_false, List.length_cons]
          exact max_le (Nat.le_trans (ih (x :: xs) ys) (by simp))
            (ih xs (y :: ys))

theorem lcs_le_left (a b : List Char) : lcs a b ≤ a.length :=
  lcsAux_le_left _ a b

theorem lcs_le_right (a b : List Char) : lcs a b ≤ b.length :=
  lcsAux_le_right _ a b

theorem iratioF_bound (a b : List Char) : (iratioF a b).1 ≤ 100 * (iratioF a b).2 := by
  simp only [iratioF]
  have h1 := lcs_le_left a b
  have h2 := lcs_le_right a b
  omega

theorem pyRoundFrac_le_100 (p : Nat × Nat) (h : p.1 ≤ 100 * p.2) :
    pyRoundFrac p ≤ 100 := by
  unfold pyRoundFrac
  by_cases hd : p.2 = 0
  · simp [hd]
  · simp only [hd, if_false]
    have hpos : 0 < p.2 := Nat.pos_of_ne_zero hd
    have hdm := Nat.div_add_mod p.1 p.2
    have hrlt : p.1 % p.2 < p.2 := Nat.mod_lt _ hpos
    have hile : p.1 / p.2 ≤ 100 := by
      calc p.1 / p.2 ≤ 100 * p.2 / p.2 := Nat.div_le_div_right h
        _ = 100 := Nat.mul_div_cancel _ hpos
    rcases Nat.lt_or_ge (p.1 / p.2) 100 with hlt | hge
    · split
      · omega
      · split
        · omega
        · split <;> omega
    · have hieq : p.1 / p.2 = 100 := Nat.le_antisymm hile hge
      have hr0 : p.1 % p.2 = 0 := by
        have : p.2 * (p.1 / p.2) + p.1 % p.2 = p.1 := hdm
        rw [hieq] at this
        omega
      rw [hr0]
      have : 2 * 0 < p.2 := by omega
      simp [this, hieq]

theorem maxF_cases (p q : Nat × Nat) : maxF p q = p ∨ maxF p q = q := by
  unfold maxF
  split
  · right; rfl
  · left; rfl

theorem tokenSetScoreL_le_100 (s1 s2 : List Char) : tokenSetScoreL s1 s2 ≤ 100 := by
  unfold tokenSetScoreL
  dsimp only
  split
  · omega
  · split
    · omega
    · apply pyRoundFrac_le_100
      rcases maxF_cases (maxF (iratioF _ _) (iratioF _ _)) (iratioF _ _) with h | h <;>
        rw [h]
      · rcases maxF_cases (iratioF _ _) (iratioF _ _) with h2 | h2 <;> rw [h2] <;>
          exact iratioF_bound _ _
      · exact iratioF_bound _ _

theorem tokenSetScore_le_100 (s1 s2 : String) : tokenSetScore s1 s2 ≤ 100 :=
  tokenSetScoreL_le_100 _ _

/-!
## Lemmas: subset of tokens gives score 100
-/

theorem tokenSetScoreL_eq_100_of (s1 s2 : List Char)
    (h1 : tokensOf s1 ≠ [])
    (hsub : ∀ t ∈ tokensOf s1, t ∈ tokensOf s2) :
    tokenSetScoreL s1 s2 = 100 := by
  obtain ⟨t, ht⟩ := List.exists_mem_of_ne_nil _ h1
  have hta : t ∈ (tokensOf s1).dedup := List.mem_dedup.mpr ht
  have htb : t ∈ (tokensOf s2).dedup := List.mem_dedup.mpr (hsub t ht)
  have hane : (tokensOf s1).dedup ≠ [] := List.ne_nil_of_mem hta
  have hbne : (tokensOf s2).dedup ≠ [] := List.ne_nil_of_mem htb
  have hdab : ((tokensOf s1).dedup.filter
      (fun t => decide (t ∉ (tokensOf s2).dedup))) = [] := by
    rw [List.filter_eq_nil_iff]
    intro a ha
    have : a ∈ tokensOf s2 := hsub a (List.mem_dedup.mp ha)
    simp [List.mem_dedup.mpr this]
  have hinter : t ∈ ((tokensOf s1).dedup.filter
      (fun t => decide (t ∈ (tokensOf s2).dedup))) := by
    rw [List.mem_filter]
    exact ⟨hta, by simp [htb]⟩
  unfold tokenSetScoreL
  rw [if_neg (by simp [hane, hbne]), if_pos ⟨List.ne_nil_of_mem hinter, Or.inl hdab⟩]

theorem searchVector_toList (r : SanctionRecord) :
    (searchVector r).toList = r.Name.toList ++ ' ' :: r.Aliases.toList := by
  show (r.Name.toList ++ (" ").toList) ++ r.Aliases.toList
      = r.Name.toList ++ ' ' :: r.Aliases.toList
  rw [List.append_assoc]
  rfl

theorem tokenSetScore_exact_name (r : SanctionRecord)
    (h : tokensOf r.Name.toList ≠ []) :
    tokenSetScore r.Name (searchVector r) = 100 := by
  unfold tokenSetScore
  rw [searchVector_toList]
  apply tokenSetScoreL_eq_100_of _ _ h
  intro t ht
  rw [tokensOf_append_space]
  exact List.mem_append_left _ ht

/-!
## Lemmas: the ranked candidate list
-/

theorem mem_insertDesc (x z : String × Nat) :
    ∀ l, z ∈ insertDesc x l ↔ z = x ∨ z ∈ l := by
  intro l
  induction l with
  | nil => simp [insertDesc]
  | cons y ys ih =>
    by_cases hc : x.2 < y.2
    · simp [insertDesc, hc, ih]
      tauto
    · simp [insertDesc, hc]

theorem mem_sortDesc (z : String × Nat) : ∀ l, z ∈ sortDesc l ↔ z ∈ l := by
  intro l
  induction l with
  | nil => simp [sortDesc]
  | cons x xs ih => simp [sortDesc, mem_insertDesc, ih]

theorem sortDesc_ne_nil (l : List (String × Nat)) (h : l ≠ []) : sortDesc l ≠ [] := by
  obtain ⟨z, hz⟩ := List.exists_mem_of_ne_nil _ h
  exact List.ne_nil_of_mem ((mem_sortDesc z l).mpr hz)

theorem insertDesc_head (x : String × Nat) :
    ∀ (s : List (String × Nat)) (h : String × Nat) (t : List (String × Nat)),
      insertDesc x s = h :: t →
      x.2 ≤ h.2 ∧ ∀ h' t', s = h' :: t' → h'.2 ≤ h.2 := by
  intro s
  cases s with
  | nil =>
    intro h t heq
    rw [insertDesc] at heq
    injection heq with h1 _
    subst h1
    exact ⟨le_refl _, fun h' t' hcon => nomatch hcon⟩
  | cons y ys =>
    intro h t heq
    rw [insertDesc] at heq
    by_cases hc : x.2 < y.2
    · rw [if_pos hc] at heq
      injection heq with h1 _
      subst h1
      refine ⟨by omega, ?_⟩
      intro h' t' hyy
      injection hyy with h3 _
      subst h3
      omega
    · rw [if_neg hc] at heq
      injection heq with h1 _
      subst h1
      refine ⟨le_refl _, ?_⟩
      intro h' t' hyy
      injection hyy with h3 _
      subst h3
      omega

theorem sortDesc_head_ge :
    ∀ (l : List (String × Nat)) (z : String × Nat) (h : String × Nat)
      (t : List (String × Nat)), z ∈ l → sortDesc l = h :: t → z.2 ≤ h.2 := by
  intro l
  induction l with
  | nil => intro z h t hz; simp at hz
  | cons x xs ih =>
    intro z h t hz heq
    rw [sortDesc] at heq
    rcases List.mem_cons.mp hz with hzx | hzxs
    · rw [hzx]
      exact (insertDesc_head x (sortDesc xs) h t heq).1
    · have hne : sortDesc xs ≠ [] :=
        sortDesc_ne_nil xs (List.ne_nil_of_mem hzxs)
      obtain ⟨h', t', hxs⟩ := List.exists_cons_of_ne_nil hne
      have hz' : z.2 ≤ h'.2 := ih z h' t' hzxs hxs
      have hh' : h'.2 ≤ h.2 := (insertDesc_head x (sortDesc xs) h t heq).2 h' t' hxs
      omega

theorem take10_cons (l : List (String × Nat)) (hd : String × Nat)
    (tl : List (String × Nat)) (h : l.take 10 = hd :: tl) :
    ∃ t', l = hd :: t' := by
  cases l with
  | nil => simp at h
  | cons x xs =>
    rw [List.take_cons (by omega)] at h
    injection h with h1 _
    exact ⟨xs, by rw [h1]⟩

theorem screenMatches_head_100 (q : String) (store : List SanctionRecord)
    (r : SanctionRecord) (hr : r ∈ store)
    (h100 : tokenSetScore q (searchVector r) = 100) :
    screenMatches q store ≠ [] ∧
    ∀ hd tl, screenMatches q store = hd :: tl → hd.2 = 100 := by
  set scored := (store.map searchVector).map (fun c => (c, tokenSetScore q c))
    with hscored
  have hpair : (searchVector r, (100 : Nat)) ∈ scored := by
    rw [hscored, ← h100]
    exact List.mem_map_of_mem _ (List.mem_map_of_mem _ hr)
  have hne : sortDesc scored ≠ [] :=
    sortDesc_ne_nil _ (List.ne_nil_of_mem hpair)
  obtain ⟨h0, t0, hht⟩ := List.exists_cons_of_ne_nil hne
  constructor
  · unfold screenMatches
    rw [← hscored, hht]
    simp [List.take_cons]
  · intro hd tl htake
    unfold screenMatches at htake
    rw [← hscored] at htake
    obtain ⟨t', hsort⟩ := take10_cons _ _ _ htake
    have hge : 100 ≤ hd.2 :=
      sortDesc_head_ge scored (searchVector r, 100) hd t' hpair hsort
    have hmem : hd ∈ sortDesc scored := by
      rw [hsort]; simp
    have hmem2 : hd ∈ scored := (mem_sortDesc hd scored).mp hmem
    rw [hscored] at hmem2
    obtain ⟨c, _, hcp⟩ := List.mem_map.mp hmem2
    have hle : hd.2 ≤ 100 := by
      rw [← hcp]
      exact tokenSetScore_le_100 _ _
    omega

theorem mem_high_risk (ms : List (String × Nat)) (m : String × Nat) :
    m ∈ high_risk_matches ms ↔ m ∈ ms ∧ 80 ≤ m.2 := by
  simp [high_risk_matches, List.mem_filter]

/-!
## Lemmas: extractor-level facts
-/

theorem buildFullText_error :
    ∀ (pages : List (Except Unit String)), Except.error () ∈ pages →
      buildFullText pages = none := by
  intro pages
  induction pages with
  | nil => intro h; simp at h
  | cons p rest ih =>
    intro h
    cases p with
    | error e => rfl
    | ok s =>
      have : Except.error () ∈ rest := by
        rcases List.mem_cons.mp h with h1 | h2
        · exact absurd h1 (by simp)
        · exact h2
      simp [buildFullText, ih this]

theorem parse_un_error (pages : List (Except Unit String)) (l : String)
    (h : Except.error () ∈ pages) : parse_un_style_pdf pages l = [] := by
  unfold parse_un_style_pdf
  rw [buildFullText_error pages h]

theorem parse_kdn_prefix (err : Unit) :
    ∀ (goodPages : List (List (List (List (Option String)))))
      (rest : List (Except Unit (List (List (List (Option String)))))),
      parse_kdn_pdf (goodPages.map Except.ok ++ Except.error err :: rest)
        = parse_kdn_pdf (goodPages.map Except.ok) := by
  intro goodPages
  induction goodPages with
  | nil => intro rest; rfl
  | cons pg pgs ih => intro rest; simp [parse_kdn_pdf, ih]

theorem replNlSp_ne_empty (s : String) (h : s ≠ "") : replNlSp s ≠ "" := by
  intro hcon
  apply h
  have hlist : replChar '\n' ' ' s.toList = [] := congrArg String.toList hcon
  have : s.toList = [] := by
    have := congrArg List.length hlist
    simpa [replChar] using List.length_eq_zero.mp (by simpa [replChar] using this)
  cases s with
  | mk data => simpa using congrArg String.mk this

theorem finalizeCell_name_ne_empty (v : Option String) :
    finalizeCell v replNlSp "N/A" ≠ "" := by
  cases v with
  | none => simp [finalizeCell]
  | some s =>
    by_cases hs : s = ""
    · simp [finalizeCell, hs]
    · simpa [finalizeCell, hs] using replNlSp_ne_empty s hs

theorem finalizeCell_unknown :
    finalizeCell (some "Unknown") replNlSp "N/A" = "Unknown" := by decide

theorem finalizeCell_some_ne (s : String) (repl : String → String) (d : String)
    (hs : s ≠ "") : finalizeCell (some s) repl d = repl s := by
  simp [finalizeCell, hs]

theorem findKdnCell_cons_some (u : String) (rest : List (Option String)) :
    findKdnCell (some u :: rest)
      = if (u ≠ "" && containsSub "KDN".toList u.toList) then some u
        else findKdnCell rest := rfl

theorem findKdnCell_spec :
    ∀ (row : List (Option String)) (i : Nat) (s : String),
      row.get? i = some (some s) → cellHasKdn (some s) →
      (∀ j, j < i → ∀ c, row.get? j = some c → cellHasKdn c = false) →
      findKdnCell row = some s := by
  intro row
  induction row with
  | nil => intro i s h; simp at h
  | cons c rest ih =>
    intro i s hget hkdn hbefore
    cases i with
    | zero =>
      rw [List.get?_cons_zero] at hget
      injection hget with hc
      subst hc
      have hcond : (s ≠ "" && containsSub "KDN".toList s.toList) = true := by
        simpa [cellHasKdn] using hkdn
      rw [findKdnCell_cons_some, if_pos hcond]
    | succ i =>
      have hc0 : cellHasKdn c = false := hbefore 0 (by omega) c (by simp)
      have htail : findKdnCell rest = some s := by
        apply ih i s (by simpa using hget) hkdn
        intro j hj d hd
        exact hbefore (j + 1) (by omega) d (by simpa using hd)
      cases c with
      | none => simpa [findKdnCell] using htail
      | some u =>
        have hcond : ¬ ((u ≠ "" && containsSub "KDN".toList u.toList) = true) := by
          simpa [cellHasKdn] using hc0
        rw [findKdnCell_cons_some, if_neg hcond]
        exact htail

theorem parseKdnRow_eq (row : List (Option String)) (h : kdnInRow row = true) :
    parseKdnRow row = some
      { Source := "MOHA Domestic List (Malaysia)"
        Reference_No := finalizeCell
          (match findKdnCell row with
           | some s => some s
           | none => some "Unknown") replNlBar "N/A"
        Name := finalizeCell
          (if 2 < row.length then row.getD 2 none else some "Unknown") replNlSp "N/A"
        Aliases := finalizeCell
          (if 7 < row.length then row.getD 7 none else some "") replNlSp ""
        DOB := finalizeCell
          (if 5 < row.length then row.getD 5 none else some "") replNlBar ""
        Designation := "Specified Entity (Domestic)"
        Nationality := "Malaysia/Other"
        Raw_Data := "ID: " ++ finalizeCell
          (if 10 < row.length then row.getD 10 none else some "") replNlBar "" } := by
  unfold parseKdnRow
  rw [if_pos h]

theorem parseKdnRow_some (row : List (Option String)) (r : SanctionRecord)
    (h : parseKdnRow row = some r) :
    r.Source = "MOHA Domestic List (Malaysia)" ∧ r.Name ≠ "" := by
  unfold parseKdnRow at h
  by_cases hk : kdnInRow row = true
  · rw [if_pos hk] at h
    injection h with h1
    subst h1
    exact ⟨rfl, finalizeCell_name_ne_empty _⟩
  · rw [if_neg hk] at h
    exact absurd h (by simp)

theorem mem_parse_kdn (r : SanctionRecord) :
    ∀ pages, r ∈ parse_kdn_pdf pages →
      ∃ row, parseKdnRow row = some r := by
  intro pages
  induction pages with
  | nil => intro h; simp [parse_kdn_pdf] at h
  | cons p rest ih =>
    intro h
    cases p with
    | error e => simp [parse_kdn_pdf] at h
    | ok pg =>
      rw [parse_kdn_pdf] at h
      rcases List.mem_append.mp h with h1 | h2
      · obtain ⟨row, _, hrow⟩ := List.mem_filterMap.mp h1
        exact ⟨row, hrow⟩
      · exact ih h2

theorem processEntry_some (l : String) (entry : List Char) (r : SanctionRecord)
    (h : processEntry l entry = some r) :
    r.Source = l ∧ r.Name = extractName entry ∧
    r.Aliases = String.intercalate " | " ((extractAliases entry).map String.mk) := by
  unfold processEntry at h
  by_cases ht : trimWsL entry = []
  · rw [if_pos ht] at h
    exact absurd h (by simp)
  · rw [if_neg ht] at h
    cases href : findRef entry with
    | none => rw [href] at h; exact absurd h (by simp)
    | some ref =>
      rw [href] at h
      injection h with h1
      subst h1
      exact ⟨rfl, rfl, rfl⟩

theorem processEntry_isSome (l : String) (entry : List Char)
    (h1 : trimWsL entry ≠ []) (h2 : (findRef entry).isSome) :
    (processEntry l entry).isSome := by
  unfold processEntry
  rw [if_neg h1]
  cases href : findRef entry with
  | none => rw [href] at h2; simp at h2
  | some ref => simp

theorem mem_parse_un (r : SanctionRecord) (pages : List (Except Unit String))
    (l : String) (h : r ∈ parse_un_style_pdf pages l) :
    ∃ entry, processEntry l entry = some r := by
  unfold parse_un_style_pdf at h
  cases hb : buildFullText pages with
  | none => rw [hb] at h; simp at h
  | some ft =>
    rw [hb] at h
    obtain ⟨entry, _, hentry⟩ := List.mem_filterMap.mp h
    exact ⟨entry, hentry⟩

theorem screenMatches_congr (q : String) (store store' : List SanctionRecord)
    (h : store.map (fun r => (r.Name, r.Aliases))
        = store'.map (fun r => (r.Name, r.Aliases))) :
    screenMatches q store = screenMatches q store' := by
  unfold screenMatches
  suffices hsv : store.map searchVector = store'.map searchVector by rw [hsv]
  have hmap : ∀ s : List SanctionRecord,
      s.map searchVector
        = (s.map (fun r => (r.Name, r.Aliases))).map (fun p => p.1 ++ " " ++ p.2) := by
    intro s
    rw [List.map_map]
    rfl
  rw [hmap store, hmap store', h]

/-!
## Lemmas: the structured regex searches
-/

theorem isPrefixOf_append_self : ∀ (t x : List Char), t.isPrefixOf (t ++ x) = true := by
  intro t x
  induction t with
  | nil => simp [List.isPrefixOf]
  | cons c cs ih => simp [List.isPrefixOf, ih]

theorem isPrefixOf_cons_ne (g : Char) (gs : List Char) (l : Char) (ls x : List Char)
    (h : g ≠ l) : (g :: gs).isPrefixOf ((l :: ls) ++ x) = false := by
  simp [List.isPrefixOf, h]

theorem wsRunLen_cons (c : Char) (l : List Char) :
    wsRunLen (c :: l) = if isWsC c then wsRunLen l + 1 else 0 := by
  unfold wsRunLen
  rw [List.takeWhile_cons]
  by_cases h : isWsC c <;> simp [h]

theorem wsRunLen_cons_append (c : Char) (cs post : List Char) (h : isWsC c = false) :
    wsRunLen ((c :: cs) ++ post) = 0 := by
  rw [List.cons_append, wsRunLen_cons, h]
  simp

theorem nameAlts_head_ws (t post : List Char) (ht : t ∈ nameAlts) :
    wsRunLen (t ++ post) = 0 := by
  simp only [nameAlts, List.mem_cons, List.not_mem_nil, or_false] at ht
  rcases ht with h | h | h | h <;> subst h
  · rw [show "Name (original".toList = 'N' :: "ame (original".toList from rfl]
    exact wsRunLen_cons_append _ _ _ (by decide)
  · rw [show "Title:".toList = 'T' :: "itle:".toList from rfl]
    exact wsRunLen_cons_append _ _ _ (by decide)
  · rw [show "Designation:".toList = 'D' :: "esignation:".toList from rfl]
    exact wsRunLen_cons_append _ _ _ (by decide)
  · rw [show "DOB:".toList = 'D' :: "OB:".toList from rfl]
    exact wsRunLen_cons_append _ _ _ (by decide)

theorem termAfterWs_space (alts : List (List Char)) (t post : List Char)
    (ht : t ∈ alts) (hws : wsRunLen (t ++ post) = 0) :
    termAfterWs alts (' ' :: (t ++ post)) = true := by
  unfold termAfterWs
  rw [wsRunLen_cons]
  simp only [show isWsC ' ' = true from rfl, if_true, hws]
  rw [List.any_eq_true]
  refine ⟨0, by simp, ?_⟩
  rw [List.any_eq_true]
  exact ⟨t, ht, by simpa using isPrefixOf_append_self t post⟩

theorem lazyGroupWs_structured (nm t post : List Char)
    (hnm : nm ≠ [])
    (hmid : ∀ l, 1 ≤ l → l < nm.length →
      termAfterWs nameAlts (nm.drop l ++ ' ' :: (t ++ post)) = false)
    (ht : t ∈ nameAlts) :
    lazyGroupWs nameAlts (nm ++ ' ' :: (t ++ post)) = some nm := by
  unfold lazyGroupWs
  have hlen : 1 ≤ nm.length := by
    cases nm with
    | nil => exact absurd rfl hnm
    | cons c cs => simp
  apply scanFrom_eq _ nm _ (nm.length - 1) 0
  · intro i hi
    simp only [Nat.zero_add]
    have hle : i + 1 ≤ nm.length := by omega
    rw [List.drop_append_of_le_length hle]
    rw [if_neg]
    simp only [Bool.not_eq_true]
    exact hmid (i + 1) (by omega) (by omega)
  · simp only [Nat.zero_add]
    have hk1 : nm.length - 1 + 1 = nm.length := by omega
    rw [hk1, List.drop_left, List.take_left]
    rw [if_pos (termAfterWs_space nameAlts t post ht (nameAlts_head_ws t post ht))]
  · simp only [List.length_append, List.length_cons]
    omega

theorem nameAt_structured (nm t post : List Char)
    (hnm : nm ≠ [])
    (hh : wsRunLen nm = 0)
    (hmid : ∀ l, 1 ≤ l → l < nm.length →
      termAfterWs nameAlts (nm.drop l ++ ' ' :: (t ++ post)) = false)
    (ht : t ∈ nameAlts) :
    nameAt ("Name:".toList ++ ' ' :: (nm ++ ' ' :: (t ++ post))) = some nm := by
  unfold nameAt
  have hdrop : (("Name:".toList ++ ' ' :: (nm ++ ' ' :: (t ++ post))).drop 5)
      = ' ' :: (nm ++ ' ' :: (t ++ post)) := by
    rw [show (5 : Nat) = ("Name:".toList).length from rfl, List.drop_left]
  rw [hdrop]
  have hnmws : wsRunLen (nm ++ ' ' :: (t ++ post)) = 0 := by
    cases nm with
    | nil => exact absurd rfl hnm
    | cons c cs =>
      have hc : isWsC c = false := by
        rw [wsRunLen_cons] at hh
        by_cases h : isWsC c
        · rw [h] at hh; simp at hh
        · simpa using h
      exact wsRunLen_cons_append _ _ _ hc
  have hws1 : wsRunLen (' ' :: (nm ++ ' ' :: (t ++ post))) = 1 := by
    rw [wsRunLen_cons, show isWsC ' ' = true from rfl]
    simp [hnmws]
  dsimp only
  rw [hws1]
  apply downFrom_eq_top
  simpa using lazyGroupWs_structured nm t post hnm hmid ht

theorem nameSearch_structured (pre nm t post : List Char)
    (hpre : ∀ p, p < pre.length →
      ("Name:".toList).isPrefixOf
        ((pre ++ "Name:".toList ++ ' ' :: (nm ++ ' ' :: (t ++ post))).drop p) = false)
    (hnm : nm ≠ [])
    (hh : wsRunLen nm = 0)
    (hmid : ∀ l, 1 ≤ l → l < nm.length →
      termAfterWs nameAlts (nm.drop l ++ ' ' :: (t ++ post)) = false)
    (ht : t ∈ nameAlts) :
    nameSearch (pre ++ "Name:".toList ++ ' ' :: (nm ++ ' ' :: (t ++ post))) = some nm := by
  unfold nameSearch
  set chunk := pre ++ "Name:".toList ++ ' ' :: (nm ++ ' ' :: (t ++ post)) with hchunk
  have hdropP : chunk.drop pre.length
      = "Name:".toList ++ ' ' :: (nm ++ ' ' :: (t ++ post)) := by
    rw [hchunk, List.append_assoc]
    exact List.drop_left _ _
  apply scanFrom_eq _ nm _ pre.length 0
  · intro i hi
    simp only [Nat.zero_add]
    rw [if_neg]
    rw [hpre i hi]
    simp
  · simp only [Nat.zero_add]
    rw [hdropP, if_pos (by simpa using isPrefixOf_append_self "Name:".toList _)]
    exact nameAt_structured nm t post hnm hh hmid ht
  · rw [hchunk]
    simp only [List.length_append, List.length_cons]
    omega

theorem lazyGroupTerm_structured (mid t post : List Char)
    (hmid : mid ≠ [])
    (hterm : ∀ l, 1 ≤ l → l < mid.length →
      aliasTerms.any (fun a => a.isPrefixOf (mid.drop l ++ (t ++ post))) = false)
    (ht : t ∈ aliasTerms) :
    lazyGroupTerm aliasTerms (mid ++ (t ++ post)) = some mid := by
  unfold lazyGroupTerm
  have hlen : 1 ≤ mid.length := by
    cases mid with
    | nil => exact absurd rfl hmid
    | cons c cs => simp
  apply scanFrom_eq _ mid _ (mid.length - 1) 0
  · intro i hi
    simp only [Nat.zero_add]
    have hle : i + 1 ≤ mid.length := by omega
    rw [List.drop_append_of_le_length hle, if_neg]
    simp only [Bool.not_eq_true]
    exact hterm (i + 1) (by omega) (by omega)
  · simp only [Nat.zero_add]
    have hk1 : mid.length - 1 + 1 = mid.length := by omega
    rw [hk1, List.drop_left, List.take_left, if_pos]
    rw [List.any_eq_true]
    exact ⟨t, ht, by simpa using isPrefixOf_append_self t post⟩
  · simp only [List.length_append]
    omega

theorem aliasSearch_structured (pre lab mid t post : List Char)
    (hpre : ∀ p, p < pre.length →
      goodLab.isPrefixOf ((pre ++ lab ++ (mid ++ (t ++ post))).drop p) = false ∧
      lowLab.isPrefixOf ((pre ++ lab ++ (mid ++ (t ++ post))).drop p) = false)
    (hlab : lab = goodLab ∨ lab = lowLab)
    (hmid : mid ≠ [])
    (hterm : ∀ l, 1 ≤ l → l < mid.length →
      aliasTerms.any (fun a => a.isPrefixOf (mid.drop l ++ (t ++ post))) = false)
    (ht : t ∈ aliasTerms) :
    aliasSearch (pre ++ lab ++ (mid ++ (t ++ post))) = some mid := by
  unfold aliasSearch
  set chunk := pre ++ lab ++ (mid ++ (t ++ post)) with hchunk
  have hdropP : chunk.drop pre.length = lab ++ (mid ++ (t ++ post)) := by
    rw [hchunk, List.append_assoc]
    exact List.drop_left _ _
  apply scanFrom_eq _ mid _ pre.length 0
  · intro i hi
    simp only [Nat.zero_add]
    rw [(hpre i hi).1, (hpre i hi).2]
    simp
  · simp only [Nat.zero_add]
    rw [hdropP]
    rcases hlab with h | h
    · subst h
      rw [if_pos (isPrefixOf_append_self goodLab _), List.drop_left]
      exact lazyGroupTerm_structured mid t post hmid hterm ht
    · subst h
      have hgood : goodLab.isPrefixOf (lowLab ++ (mid ++ (t ++ post))) = false := by
        rw [show goodLab = 'G' :: "ood quality a.k.a.:".toList from rfl,
            show lowLab = 'L' :: "ow quality a.k.a.:".toList from rfl]
        exact isPrefixOf_cons_ne _ _ _ _ _ (by decide)
      rw [if_neg (by simp [hgood]),
          if_pos (isPrefixOf_append_self lowLab _), List.drop_left]
      exact lazyGroupTerm_structured mid t post hmid hterm ht
  · have hlen : 1 ≤ mid.length := by
      cases mid with
      | nil => exact absurd rfl hmid
      | cons c cs => simp
    rw [hchunk]
    simp only [List.length_append]
    omega

/-!
## Claims
-/

/-- Claim C1 counterexample: the record whose name is the non-empty string
`"-"` falsifies the claim as stated — its name normalises to no tokens, so
screening with the exact name string scores 0, not 100. -/
theorem C1_cex :
    c1dash.Name ≠ "" ∧ c1dash ∈ [c1dash] ∧
    tokenSetScore c1dash.Name (searchVector c1dash) = 0 ∧
    tokenSetScore c1dash.Name (searchVector c1dash) ≠ 100 :=
  ⟨by decide, List.mem_singleton.mpr rfl, by decide, by decide⟩

/-- Claim C1 (amended): for every record in the store whose name still
contains at least one token after the scorer's normalisation (lower-casing,
non-alphanumerics to spaces), screening with the query equal to that record's
exact name string yields a similarity score of 100 for that record's search
key, and the record is ranked first or tied-first: the first-ranked
candidate's score equals that 100. -/
theorem C1_exact_name_tied_first (store : List SanctionRecord) (r : SanctionRecord)
    (hr : r ∈ store) (hname : tokensOf r.Name.toList ≠ []) :
    tokenSetScore r.Name (searchVector r) = 100 ∧
    screenMatches r.Name store ≠ [] ∧
    (∀ hd tl, screenMatches r.Name store = hd :: tl → hd.2 = 100) := by
  have h100 := tokenSetScore_exact_name r hname
  have hhead := screenMatches_head_100 r.Name store r hr h100
  exact ⟨h100, hhead.1, hhead.2⟩

theorem C1_witness :
    tokensOf c1rec.Name.toList ≠ [] ∧
    tokenSetScore c1rec.Name (searchVector c1rec) = 100 :=
  ⟨by decide,
   (C1_exact_name_tied_first [c1rec] c1rec (List.mem_singleton.mpr rfl) (by decide)).1⟩

/-- Claim C2: a returned candidate is a high-risk match iff its score is at
least 80 (in particular a key scoring exactly 80 is high-risk and one scoring
79 is not), and the candidate list holds at most the 10 ranked entries the
caller filters. -/
theorem C2_threshold_iff :
    (∀ (q : String) (store : List SanctionRecord) (m : String × Nat),
      m ∈ high_risk_matches (screenMatches q store) ↔
        m ∈ screenMatches q store ∧ 80 ≤ m.2) ∧
    (∀ (q : String) (store : List SanctionRecord),
      (screenMatches q store).length ≤ 10) ∧
    tokenSetScore "abcde" (searchVector c2rec80) = 80 ∧
    (searchVector c2rec80, 80) ∈ high_risk_matches (screenMatches "abcde" [c2rec80]) ∧
    tokenSetScore "abcdefghijkxyz" (searchVector c2rec79) = 79 ∧
    (searchVector c2rec79, 79) ∈ screenMatches "abcdefghijkxyz" [c2rec79] ∧
    (searchVector c2rec79, 79) ∉ high_risk_matches (screenMatches "abcdefghijkxyz" [c2rec79]) := by
  refine ⟨fun q store m => mem_high_risk _ m,
    fun q store => List.length_take_le 10 _,
    by decide, by decide, by decide, by decide, by decide⟩

/-- Claim C3 counterexample: a whitespace-only query is empty after trimming
yet truthy in Python, so the code screens it instead of rejecting it: the
outcome is the screening branch (every score is 0), not the warning. -/
theorem C3_cex :
    (" " : String) ≠ "" ∧ trimWsL (" " : String).toList = [] ∧
    runSearch " " [c3rec]
      = (SearchOutcome.screened [("Ali ", 0)] [], [c3rec]) ∧
    (runSearch " " [c3rec]).1 ≠ SearchOutcome.warned := by
  refine ⟨by decide, by decide, by decide, by decide⟩

/-- Claim C3 (amended): exactly the empty-string query is rejected before the
screening engine is invoked — the warning branch is taken, no candidate list
is computed, and the record store is unchanged. -/
theorem C3_empty_query_rejected (store : List SanctionRecord) :
    runSearch "" store = (SearchOutcome.warned, store) := by
  simp [runSearch]

/-- Claim C9 counterexample: a tabular document whose second page fails
mid-extraction yields the one record accumulated from the first page, not an
empty sequence. -/
theorem C9_cex :
    Except.error () ∈
      ([Except.ok [[[some "KDN.9", some "x", some "Nm"]]], Except.error ()] :
        List (Except Unit (List (List (List (Option String)))))) ∧
    (parse_kdn_pdf [Except.ok [[[some "KDN.9", some "x", some "Nm"]]],
        Except.error ()]).length = 1 ∧
    (1 : Nat) ≠ 0 :=
  ⟨by simp, by decide, by decide⟩

/-- Claim C9 (amended): extraction errors never propagate; the narrative
extractor returns the empty record sequence whenever any page errors (all
appends happen after the full text is assembled), while the tabular extractor
returns exactly the records accumulated from the pages before the first
error (empty only when the error precedes every qualifying row). -/
theorem C9_error_policy :
    (∀ (pages : List (Except Unit String)) (l : String),
      Except.error () ∈ pages → parse_un_style_pdf pages l = []) ∧
    (∀ (goodPages : List (List (List (List (Option String))))) (err : Unit)
      (rest : List (Except Unit (List (List (List (Option String)))))),
      parse_kdn_pdf (goodPages.map Except.ok ++ Except.error err :: rest)
        = parse_kdn_pdf (goodPages.map Except.ok)) :=
  ⟨parse_un_error, fun g err rest => parse_kdn_prefix err g rest⟩

theorem C9_witness :
    parse_un_style_pdf [Except.ok "x", Except.error ()] "L" = [] ∧
    parse_kdn_pdf ([[[[some "KDN.9", some "x", some "Nm"]]]].map Except.ok
        ++ Except.error () :: [])
      = parse_kdn_pdf ([[[[some "KDN.9", some "x", some "Nm"]]]].map Except.ok) :=
  ⟨C9_error_policy.1 _ "L" (by simp), C9_error_policy.2 _ () []⟩

/-- Claim C10: screening a non-empty query when at least one document was
supplied but every supplied document extracted to zero records raises
`KeyError` (the concatenated empty DataFrame has no `Name` column) instead of
completing with a NO_MATCH outcome; with a nonzero extraction or with the
sample fallback the same query completes normally. -/
theorem C10_empty_store_fault :
    appSearch "John" [[]] = Except.error "KeyError: Name" ∧
    appSearch "John" [[c3rec]]
      = Except.ok (SearchOutcome.screened [("Ali ", 0)] []) ∧
    appSearch "John" []
      = Except.ok (SearchOutcome.screened (screenMatches "John" (loadStore []))
          (high_risk_matches (screenMatches "John" (loadStore [])))) := by
  refine ⟨by rfl, by rfl, by simp [appSearch]⟩

/-- Claim C4 counterexample: in the entry
`" QDi.101 Name: 5: Ana Rashid Title: Mr"` the code removes the marker `5:`
(the sub pattern is any digit run plus colon, not only `1:`..`4:`) and the
substring `na` inside `Ana` (not only the standalone filler token), extracting
`"A Rashid"` — which differs from the claim's reading under every
combination (`"5: Ana Rashid"`, `"Ana Rashid"`, `"5: A Rashid"`). -/
theorem C4_cex :
    (parse_un_style_pdf [Except.ok " QDi.101 Name: 5: Ana Rashid Title: Mr"] "L").map
      SanctionRecord.Name = ["A Rashid"] ∧
    ("A Rashid" : String) ≠ "5: Ana Rashid" ∧
    ("A Rashid" : String) ≠ "Ana Rashid" ∧
    ("A Rashid" : String) ≠ "5: A Rashid" :=
  ⟨by decide, by decide, by decide, by decide⟩

/-- Claim C4 (amended): for every narrative chunk of the shape
`pre ++ "Name: " ++ nm ++ " " ++ t ++ post` with `t` one of the four
recognised terminator labels, no `Name:` occurrence starting inside `pre`,
and `nm` a nonempty text not starting with whitespace and containing no
internal whitespace-then-terminator position, the extracted name equals `nm`
cleaned by the code's pipeline: every digit-run-plus-colon marker removed
(not only `1:`..`4:`), every occurrence of the substring `na` removed (not
only the standalone filler token), newlines to spaces, stripped, whitespace
runs collapsed; when no `Name:` match exists the name is the sentinel
`"Unknown Name"`. -/
theorem C4_name_extraction (pre nm t post : List Char)
    (hpre : ∀ p, p < pre.length →
      ("Name:".toList).isPrefixOf
        ((pre ++ "Name:".toList ++ ' ' :: (nm ++ ' ' :: (t ++ post))).drop p) = false)
    (hnm : nm ≠ [])
    (hh : wsRunLen nm = 0)
    (hmid : ∀ l, 1 ≤ l → l < nm.length →
      termAfterWs nameAlts (nm.drop l ++ ' ' :: (t ++ post)) = false)
    (ht : t ∈ nameAlts) :
    extractName (pre ++ "Name:".toList ++ ' ' :: (nm ++ ' ' :: (t ++ post)))
      = String.mk (cleanName nm) ∧
    (∀ e, nameSearch e = none → extractName e = "Unknown Name") := by
  constructor
  · unfold extractName
    rw [nameSearch_structured pre nm t post hpre hnm hh hmid ht]
  · intro e he
    unfold extractName
    rw [he]

theorem C4_witness :
    extractName ("QDi.1 ".toList ++ "Name:".toList
        ++ ' ' :: ("1: Omar 2: Khan".toList ++ ' ' :: ("DOB:".toList ++ " 1960".toList)))
      = String.mk (cleanName "1: Omar 2: Khan".toList) ∧
    String.mk (cleanName "1: Omar 2: Khan".toList) = "Omar Khan" :=
  ⟨(C4_name_extraction "QDi.1 ".toList "1: Omar 2: Khan".toList "DOB:".toList
      " 1960".toList (by decide) (by decide) (by decide) (by decide) (by decide)).1,
   by decide⟩

/-- Claim C5 counterexample: in the alias block
`"Good quality a.k.a.: a)Alb) Bozo Nationality: X"` the fragment `"Al"` is
non-trivial after trimming (two characters, not `na`), yet the code's filter
`len(a) > 2` tests the raw fragment and discards it: the code extracts one
alias where the claim predicts two. -/
theorem C5_cex :
    (parse_un_style_pdf
        [Except.ok " QDi.102 Name: Omar Title: Mr Good quality a.k.a.: a)Alb) Bozo Nationality: X"]
        "L").map SanctionRecord.Aliases = ["Bozo"] ∧
    (extractAliases
      " QDi.102 Name: Omar Title: Mr Good quality a.k.a.: a)Alb) Bozo Nationality: X".toList).length
      = 1 ∧
    (((splitLp (replChar '\n' ' ' " a)Alb) Bozo ".toList)).map
        (fun a => trimWsL (trimScL a))).filter
          (fun a => a.length ≠ 0 && a.length ≠ 1 && lowerL a ≠ "na".toList)).length = 2 ∧
    (1 : Nat) ≠ 2 :=
  ⟨by decide, by decide, by decide, by decide⟩

/-- Claim C5 (amended): for every alias block of the shape
`pre ++ lab ++ mid ++ t ++ post` (with `lab` one of the two quality labels,
`t` one of the four terminators, no label occurrence starting inside `pre`,
`mid` nonempty with no internal terminator position), the extracted aliases
are obtained from `mid` by splitting on lowercase-letter-plus-close-paren,
keeping exactly the *raw* fragments of length greater than 2 that are not
case-insensitively `na` (so a two-character fragment is discarded even though
it is non-trivial), then trimming each kept fragment of surrounding
whitespace and semicolons; the alias count equals the number of fragments
passing that raw-length filter. -/
theorem C5_alias_extraction (pre lab mid t post : List Char)
    (hpre : ∀ p, p < pre.length →
      goodLab.isPrefixOf ((pre ++ lab ++ (mid ++ (t ++ post))).drop p) = false ∧
      lowLab.isPrefixOf ((pre ++ lab ++ (mid ++ (t ++ post))).drop p) = false)
    (hlab : lab = goodLab ∨ lab = lowLab)
    (hmid : mid ≠ [])
    (hterm : ∀ l, 1 ≤ l → l < mid.length →
      aliasTerms.any (fun a => a.isPrefixOf (mid.drop l ++ (t ++ post))) = false)
    (ht : t ∈ aliasTerms) :
    extractAliases (pre ++ lab ++ (mid ++ (t ++ post)))
      = ((splitLp (replChar '\n' ' ' mid)).filter aliasKeep).map
          (fun a => trimWsL (trimScL a)) ∧
    (extractAliases (pre ++ lab ++ (mid ++ (t ++ post)))).length
      = ((splitLp (replChar '\n' ' ' mid)).filter aliasKeep).length := by
  have h := aliasSearch_structured pre lab mid t post hpre hlab hmid hterm ht
  constructor
  · unfold extractAliases
    rw [h]
    rfl
  · unfold extractAliases
    rw [h]
    simp [aliasPipeline]

theorem C5_witness :
    extractAliases (" QDi.102 Name: Omar Title: Mr ".toList ++ goodLab
        ++ (" a)Alb) Bozo ".toList ++ ("Nationality:".toList ++ " X".toList)))
      = ((splitLp (replChar '\n' ' ' " a)Alb) Bozo ".toList)).filter aliasKeep).map
          (fun a => trimWsL (trimScL a)) :=
  (C5_alias_extraction " QDi.102 Name: Omar Title: Mr ".toList goodLab
    " a)Alb) Bozo ".toList "Nationality:".toList " X".toList
    (by decide) (Or.inl rfl) (by decide) (by decide) (by decide)).1

/-- Claim C6 counterexample: a qualifying two-cell row gets the name
`"Unknown"` (the untouched initial Python value), not the claimed sentinel
`"N/A"`. -/
theorem C6_cex :
    (parseKdnRow [some "KDN.1", some "x"]).map SanctionRecord.Name
      = some "Unknown" ∧
    ("Unknown" : String) ≠ "N/A" :=
  ⟨by decide, by decide⟩

/-- Claim C6 (amended): for every qualifying row (marker `KDN` in the
stringified row), a record is produced; its name is the cell at index 2 with
newlines replaced by spaces when the row has more than 2 cells and that cell
is a non-empty string, and the fallback name for a row of at most 2 cells is
`"Unknown"` (not `"N/A"`; `"N/A"` is used only when the cell itself is
`None` or empty); the reference number is the first cell containing `KDN`
(with newlines replaced by `" | "`); a row without the marker produces no
record. -/
theorem C6_kdn_row_fields :
    (∀ row, kdnInRow row = true → row.length ≤ 2 →
      ∃ rec, parseKdnRow row = some rec ∧ rec.Name = "Unknown") ∧
    (∀ row s, kdnInRow row = true → row.get? 2 = some (some s) → s ≠ "" →
      ∃ rec, parseKdnRow row = some rec ∧ rec.Name = replNlSp s) ∧
    (∀ row i s, kdnInRow row = true → row.get? i = some (some s) →
      cellHasKdn (some s) = true →
      ((row.take i).all (fun c => !(cellHasKdn c))) = true →
      ∃ rec, parseKdnRow row = some rec ∧ rec.Reference_No = replNlBar s) ∧
    (∀ row, kdnInRow row = false → parseKdnRow row = none) := by
  refine ⟨?_, ?_, ?_, ?_⟩
  · intro row hk hlen
    refine ⟨_, parseKdnRow_eq row hk, ?_⟩
    have hnot : ¬ 2 < row.length := by omega
    simp only [hnot, if_false]
    exact finalizeCell_unknown
  · intro row s hk hget hs
    refine ⟨_, parseKdnRow_eq row hk, ?_⟩
    have hlt : 2 < row.length := by
      by_contra hcon
      have : row.get? 2 = none := List.get?_eq_none.mpr (by omega)
      rw [this] at hget
      exact absurd hget (by simp)
    have hgd : row.getD 2 none = some s := by
      have : row.getD 2 none = (row.get? 2).getD none := rfl
      rw [this, hget]
      rfl
    show finalizeCell (if 2 < row.length then row.getD 2 none else some "Unknown")
      replNlSp "N/A" = replNlSp s
    rw [if_pos hlt, hgd]
    exact finalizeCell_some_ne s _ _ hs
  · intro row i s hk hget hkdn hbefore
    refine ⟨_, parseKdnRow_eq row hk, ?_⟩
    have hfind : findKdnCell row = some s := by
      apply findKdnCell_spec row i s hget hkdn
      intro j hj c hc
      have hmem : c ∈ row.take i := by
        have hgt : (row.take i).get? j = row.get? j := List.get?_take hj
        exact List.get?_mem (by rw [hgt]; exact hc)
      have := List.all_eq_true.mp hbefore c hmem
      simpa using this
    have hs : s ≠ "" := by
      simp only [cellHasKdn, Bool.and_eq_true, decide_eq_true_eq] at hkdn
      exact hkdn.1
    show finalizeCell
      (match findKdnCell row with
       | some s => some s
       | none => some "Unknown") replNlBar "N/A" = replNlBar s
    rw [hfind]
    exact finalizeCell_some_ne s _ _ hs
  · intro row hk
    unfold parseKdnRow
    rw [if_neg (by simp [hk])]

theorem C6_witness :
    (∃ rec, parseKdnRow [some "KDN.7", some "y"] = some rec ∧
      rec.Name = "Unknown") ∧
    (∃ rec, parseKdnRow [some "KDN.8", none, some "Halimah binti Hussein"] = some rec ∧
      rec.Name = replNlSp "Halimah binti Hussein") ∧
    (∃ rec, parseKdnRow [none, some "KDN.5 X"] = some rec ∧
      rec.Reference_No = replNlBar "KDN.5 X") :=
  ⟨C6_kdn_row_fields.1 [some "KDN.7", some "y"] (by decide) (by decide),
   C6_kdn_row_fields.2.1 [some "KDN.8", none, some "Halimah binti Hussein"]
     "Halimah binti Hussein" (by decide) (by decide) (by decide),
   C6_kdn_row_fields.2.2.1 [none, some "KDN.5 X"] 1 "KDN.5 X"
     (by decide) (by decide) (by decide) (by decide)⟩

/-- Claim C7 counterexample: the narrative chunk
`" QDi.103 Name: na Title: Mr"` yields a record whose name is the *empty
string*: the labelled text `na` is removed entirely by the cleaning pipeline
and the `"Unknown Name"` sentinel only covers the absent-label case. -/
theorem C7_cex :
    (parse_un_style_pdf [Except.ok " QDi.103 Name: na Title: Mr"]
        "UNSCR 1718 (DPRK)").map SanctionRecord.Name = [""] ∧
    (parse_un_style_pdf [Except.ok " QDi.103 Name: na Title: Mr"]
        "UNSCR 1718 (DPRK)").length = 1 :=
  ⟨by decide, by decide⟩

/-- Claim C7 (amended): every tabular record has the fixed non-empty source
and a non-empty name; every narrative record's source equals the supplied
list label; and no chunk is dropped for missing optional fields — a record
is produced for every non-blank chunk containing a reference number.  (A
narrative record's *name* may however clean to the empty string, as the
counterexample shows.) -/
theorem C7_record_invariants :
    (∀ pages r, r ∈ parse_kdn_pdf pages →
      r.Source = "MOHA Domestic List (Malaysia)" ∧ r.Name ≠ "") ∧
    (∀ pages l r, r ∈ parse_un_style_pdf pages l → r.Source = l) ∧
    (∀ (l : String) (entry : List Char), trimWsL entry ≠ [] →
      (findRef entry).isSome → (processEntry l entry).isSome) := by
  refine ⟨?_, ?_, processEntry_isSome⟩
  · intro pages r hr
    obtain ⟨row, hrow⟩ := mem_parse_kdn r pages hr
    exact parseKdnRow_some row r hrow
  · intro pages l r hr
    obtain ⟨entry, he⟩ := mem_parse_un r pages l hr
    exact (processEntry_some l entry r he).1

theorem C7_witness :
    (processEntry "UNSCR 2231 (Iran)" " QDi.1 Name: Omar DOB: 1960".toList).isSome :=
  C7_record_invariants.2.2 "UNSCR 2231 (Iran)" " QDi.1 Name: Omar DOB: 1960".toList
    (by decide) (by decide)

/-- Claim C8 counterexample: a record with two aliases has the search key
`"Xon Bozo | Cuzo"` — the alias field is the `" | "`-join of the alias list
— not the single-space join `"Xon Bozo Cuzo"` the claim describes. -/
theorem C8_cex :
    (parse_un_style_pdf
        [Except.ok " QDi.104 Name: Xon Title: Mr Good quality a.k.a.: a) Bozo b) Cuzo Nationality: X"]
        "L").map searchVector = ["Xon Bozo | Cuzo"] ∧
    (extractAliases
        " QDi.104 Name: Xon Title: Mr Good quality a.k.a.: a) Bozo b) Cuzo Nationality: X".toList).map
      String.mk = ["Bozo", "Cuzo"] ∧
    ("Xon" ++ " " ++ String.intercalate " " ["Bozo", "Cuzo"] : String) = "Xon Bozo Cuzo" ∧
    ("Xon Bozo | Cuzo" : String) ≠ "Xon Bozo Cuzo" :=
  ⟨by decide, by decide, by decide, by decide⟩

/-- Claim C8 (amended): the search key is the name, a single space, and the
record's alias *field* (which the narrative extractor fills with the alias
list joined by `" | "`, not by single spaces); it is recomputed from the two
fields at screening time — the ranked result depends on the store only
through the `(name, aliases)` pairs of its records. -/
theorem C8_search_key :
    (∀ r : SanctionRecord, searchVector r = r.Name ++ " " ++ r.Aliases) ∧
    (∀ (q : String) (store store' : List SanctionRecord),
      store.map (fun r => (r.Name, r.Aliases))
        = store'.map (fun r => (r.Name, r.Aliases)) →
      screenMatches q store = screenMatches q store') ∧
    (∀ (l : String) (entry : List Char) (r : SanctionRecord),
      processEntry l entry = some r →
      r.Aliases = String.intercalate " | " ((extractAliases entry).map String.mk)) := by
  refine ⟨fun r => rfl, screenMatches_congr, ?_⟩
  intro l entry r h
  exact (processEntry_some l entry r h).2.2

theorem C8_witness :
    screenMatches "q" [mkRec "A" "B"]
      = screenMatches "q" [⟨"other", "zz", "A", "B", "d", "e", "f", "g"⟩] :=
  C8_search_key.2.1 "q" _ _ (by decide)
